import Mathlib

/-!
Shallow embedding of the prepared-statement subsystem of the mysql_async
client (`src/queryable/stmt.rs`): statement metadata, the per-connection
statement cache, the prepare protocol, parameter binding and the
long-data protocol.

External collaborators (the transport, `mysql_common` packet parsers, the
named-parameter parser, the execute-request builder) are modelled as
components of an environment `Env`; the connection's observable protocol
state (packets still to be read, commands written so far, the statement
cache, capability flags) is the state type `ConnState`.  Each `async fn`
of the source becomes a state-passing function returning
`Except DriverError α × ConnState`.
-/

namespace MysqlStmt

/-- MySQL binary-protocol value (`mysql_common::value::Value`).  Only the
`Bytes` constructor is inspected by this subsystem; floating-point payloads
are carried as raw bit patterns. -/
inductive Value where
  | NULL : Value
  | Bytes (bytes : List Nat) : Value
  | IntV (i : Int) : Value
  | UIntV (u : Nat) : Value
  | FloatBits (bits : Nat) : Value
  | DoubleBits (bits : Nat) : Value
  | Date (year month day hour minute second micro : Nat) : Value
  | Time (negative : Bool) (days hours minutes seconds micro : Nat) : Value
deriving DecidableEq, Repr

/-- Parameter set supplied to an execute call (`crate::Params`). -/
inductive Params where
  | Positional (vals : List Value) : Params
  | Named (pairs : List (String × Value)) : Params
  | Empty : Params
deriving DecidableEq, Repr

/-- Errors observable from this subsystem.  `StmtParamsMismatch` and
`NamedParamsForPositionalQuery` are the two `DriverError` variants raised
by `execute_statement`; every transport or packet-parse failure coming
from a collaborator is collapsed into `Other`. -/
inductive DriverError where
  | StmtParamsMismatch (required supplied : Nat) : DriverError
  | NamedParamsForPositionalQuery : DriverError
  | Other : DriverError
deriving DecidableEq, Repr

/-- Parsed COM_STMT_PREPARE response (`mysql_common::packets::StmtPacket`):
the statement id (u32) and the declared parameter / result-column
counts (u16 each). -/
structure StmtPacket where
  statement_id : Nat
  num_params : Nat
  num_columns : Nat
deriving DecidableEq, Repr

/-- Column descriptor (`crate::Column`); parsed by the external
`column_from_payload`, opaque to this subsystem, so it is modelled as the
raw packet payload it was parsed from. -/
structure Column where
  payload : List Nat
deriving DecidableEq, Repr

/-- Statement metadata (`StmtInner`, stmt.rs lines 52-58). -/
structure StmtInner where
  raw_query : String
  columns : Option (List Column)
  params : Option (List Column)
  stmt_packet : StmtPacket
  connection_id : Nat
deriving DecidableEq, Repr

/-- `StmtInner::with_params` (stmt.rs lines 77-84): an empty descriptor list
is normalized to `none`. -/
def StmtInner.with_params (s : StmtInner) (ps : List Column) : StmtInner :=
  { s with params := if ps.isEmpty then none else some ps }

/-- `StmtInner::with_columns` (stmt.rs lines 86-93). -/
def StmtInner.with_columns (s : StmtInner) (cs : List Column) : StmtInner :=
  { s with columns := if cs.isEmpty then none else some cs }

/-- `StmtInner::columns` accessor (stmt.rs lines 95-97): `none` reads as the
empty descriptor list. -/
def StmtInner.columnsList (s : StmtInner) : List Column :=
  s.columns.getD []

/-- `StmtInner::params` accessor (stmt.rs lines 99-101). -/
def StmtInner.paramsList (s : StmtInner) : List Column :=
  s.params.getD []

/-- `StmtInner::id` (stmt.rs lines 103-105). -/
def StmtInner.id (s : StmtInner) : Nat :=
  s.stmt_packet.statement_id

/-- `StmtInner::num_params` (stmt.rs lines 111-113). -/
def StmtInner.num_params (s : StmtInner) : Nat :=
  s.stmt_packet.num_params

/-- `StmtInner::num_columns` (stmt.rs lines 115-117). -/
def StmtInner.num_columns (s : StmtInner) : Nat :=
  s.stmt_packet.num_columns

/-- Prepared-statement handle (`Statement`, stmt.rs lines 122-125): shared
metadata plus the optional named-parameter name list. -/
structure Statement where
  inner : StmtInner
  named_params : Option (List String)
deriving DecidableEq, Repr

/-- `Statement::id` (stmt.rs lines 143-145). -/
def Statement.id (s : Statement) : Nat :=
  s.inner.id

/-- `Statement::num_params` (stmt.rs lines 151-153). -/
def Statement.num_params (s : Statement) : Nat :=
  s.inner.num_params

/-- `<Statement as StatementLike>::info` (stmt.rs lines 42-49): returns the
handle's own name list and its own metadata's raw query; never fails and
never re-parses the text. -/
def Statement.info (s : Statement) : Except DriverError (Option (List String) × String) :=
  .ok (s.named_params, s.inner.raw_query)

/-- Protocol commands written to the transport, abstracted from their byte
serialization: the payload of a COM_STMT_EXECUTE request is recorded as the
statement id together with the bound values handed to
`ComStmtExecuteRequestBuilder::build`. -/
inductive Command where
  | stmtPrepare (raw_query : String) : Command
  | sendLongData (statement_id : Nat) (param_index : Nat) (chunk : List Nat) : Command
  | execRequest (statement_id : Nat) (vals : List Value) : Command
  | stmtClose (statement_id : Nat) : Command
deriving DecidableEq, Repr

/-- Whether a command is a long-data command for parameter position `i`. -/
def Command.longDataAt (i : Nat) : Command → Bool
  | .sendLongData _ j _ => j = i
  | _ => false

/-- Per-connection statement cache.  Modelled from the spec: the cache
itself (`Conn::get_cached_stmt` / `Conn::cache_stmt`) lives outside this
source file; per spec section 4.2 it is a bounded map from raw query text
to shared statement metadata whose insert returns the displaced entry.
Entries are kept most-recently-inserted first. -/
structure StmtCache where
  capacity : Nat
  entries : List (String × StmtInner)
deriving DecidableEq, Repr

/-- Modelled from the spec: cache lookup by exact raw query text
(spec section 4.2, "entries keyed by exact raw query string"). -/
def cache_get (c : StmtCache) (q : String) : Option StmtInner :=
  (c.entries.find? (fun e => e.1 = q)).map (fun e => e.2)

/-- Modelled from the spec: `Conn::cache_stmt` (spec section 4.2 insert):
installs the new entry under its raw-query key; when the capacity is
exceeded the least-recently-inserted entry is evicted and returned so the
caller can close it on the wire. -/
def cache_stmt (inner : StmtInner) (c : StmtCache) : StmtCache × Option StmtInner :=
  let pruned := c.entries.filter (fun e => e.1 ≠ inner.raw_query)
  let entries := (inner.raw_query, inner) :: pruned
  if c.capacity < entries.length then
    (⟨c.capacity, entries.dropLast⟩, (entries.getLast?).map (fun e => e.2))
  else
    (⟨c.capacity, entries⟩, none)

/-- External collaborators: packet parsers from `mysql_common`, the
named-parameter parser, the execute-request builder's long-data decision,
`Params::into_positional`, and the transport's write-failure behaviour. -/
structure Env where
  writeFails : Command → Bool
  parseStmtPacket : List Nat → Except Unit StmtPacket
  columnFromPayload : List Nat → Except Unit Column
  buildAsLongData : Nat → List Value → Bool
  intoPositional : List (String × Value) → List String → Except Unit (List Value)
  parseNamedParams : String → Except Unit (Option (List String) × String)

/-- Observable protocol state of one connection: the framed packets still
to be read, the commands written so far (oldest first), the statement
cache, the CLIENT_DEPRECATE_EOF capability and the connection id. -/
structure ConnState where
  incoming : List (List Nat)
  written : List Command
  cache : StmtCache
  deprecate_eof : Bool
  conn_id : Nat
deriving DecidableEq

/-- Transport write (`write_command_data` / `write_command_raw`): appends
the command to the trace, or fails without sending anything. -/
def writeCommand (env : Env) (c : Command) (st : ConnState) :
    Except DriverError Unit × ConnState :=
  if env.writeFails c then (.error .Other, st)
  else (.ok (), { st with written := st.written ++ [c] })

/-- Sequence of transport writes with early return on the first failure
(the `?` operator inside the source's write loops). -/
def writeCommands (env : Env) : List Command → ConnState → Except DriverError Unit × ConnState
  | [], st => (.ok (), st)
  | c :: rest, st =>
    match writeCommand env c st with
    | (.error e, st1) => (.error e, st1)
    | (.ok _, st1) => writeCommands env rest st1

/-- Transport read of one framed packet (`read_packet`). -/
def read_packet (st : ConnState) : Except DriverError (List Nat) × ConnState :=
  match st.incoming with
  | [] => (.error .Other, st)
  | p :: rest => (.ok p, { st with incoming := rest })

/-- Transport read of `n` framed packets (`read_packets`). -/
def read_packets (n : Nat) (st : ConnState) : Except DriverError (List (List Nat)) × ConnState :=
  match n with
  | 0 => (.ok [], st)
  | n + 1 =>
    match read_packet st with
    | (.error e, st1) => (.error e, st1)
    | (.ok p, st1) =>
      match read_packets n st1 with
      | (.error e, st2) => (.error e, st2)
      | (.ok ps, st2) => (.ok (p :: ps), st2)

/-- Rust's `collect::<Result<Vec<_>, _>>()`: first error wins. -/
def collectResults {β : Type} : List (Except Unit β) → Except Unit (List β)
  | [] => .ok []
  | .error e :: _ => .error e
  | .ok b :: rest =>
    match collectResults rest with
    | .error e => .error e
    | .ok bs => .ok (b :: bs)

/-- `Conn::read_column_defs` (stmt.rs lines 164-186): read `num` packets,
parse each with `column_from_payload`, then read one trailing EOF-marker
packet iff the capabilities do not contain CLIENT_DEPRECATE_EOF.
The source requires `num > 0` (debug_assert). -/
def read_column_defs (env : Env) (st : ConnState) (num : Nat) :
    Except DriverError (List Column) × ConnState :=
  match read_packets num st with
  | (.error e, st1) => (.error e, st1)
  | (.ok packets, st1) =>
    match collectResults (packets.map env.columnFromPayload) with
    | .error _ => (.error .Other, st1)
    | .ok defs =>
      if st1.deprecate_eof then (.ok defs, st1)
      else
        match read_packet st1 with
        | (.error e, st2) => (.error e, st2)
        | (.ok _, st2) => (.ok defs, st2)

/-- Steps 1-4 of `Conn::prepare_statement` (stmt.rs lines 205-222): write
COM_STMT_PREPARE, read and parse the response packet
(`StmtInner::from_payload`), then read the parameter and result-column
descriptor groups, each only when its declared count is positive. -/
def prepare_meta (env : Env) (st : ConnState) (raw_query : String) :
    Except DriverError StmtInner × ConnState :=
  match writeCommand env (.stmtPrepare raw_query) st with
  | (.error e, st1) => (.error e, st1)
  | (.ok _, st1) =>
    match read_packet st1 with
    | (.error e, st2) => (.error e, st2)
    | (.ok pkt, st2) =>
      match env.parseStmtPacket pkt with
      | .error _ => (.error .Other, st2)
      | .ok sp =>
        let inner : StmtInner :=
          { raw_query := raw_query, columns := none, params := none,
            stmt_packet := sp, connection_id := st2.conn_id }
        match
          (if 0 < inner.num_params then
            match read_column_defs env st2 inner.num_params with
            | (.error e, st3) => (.error e, st3)
            | (.ok ps, st3) => (.ok (inner.with_params ps), st3)
          else (.ok inner, st2) : Except DriverError StmtInner × ConnState)
        with
        | (.error e, st3) => (.error e, st3)
        | (.ok inner1, st3) =>
          if 0 < inner1.num_columns then
            match read_column_defs env st3 inner1.num_columns with
            | (.error e, st4) => (.error e, st4)
            | (.ok cs, st4) => (.ok (inner1.with_columns cs), st4)
          else (.ok inner1, st3)

/-- `Conn::prepare_statement` (stmt.rs lines 205-231): the metadata phase
followed by cache insertion; when the insert displaces an entry, a close
command for the evicted handle is written and its failure propagates even
though the new entry is already installed. -/
def prepare_statement (env : Env) (st : ConnState) (raw_query : String) :
    Except DriverError StmtInner × ConnState :=
  match prepare_meta env st raw_query with
  | (.error e, st1) => (.error e, st1)
  | (.ok inner, st1) =>
    match cache_stmt inner st1.cache with
    | (cache1, evicted) =>
      let st2 := { st1 with cache := cache1 }
      match evicted with
      | none => (.ok inner, st2)
      | some old =>
        match writeCommand env (.stmtClose old.id) st2 with
        | (.error e, st3) => (.error e, st3)
        | (.ok _, st3) => (.ok inner, st3)

/-- `Conn::get_statement` (stmt.rs lines 189-200) specialized to raw query
text input (`<str as StatementLike>::info` = `parse_named_params`): parse
the text, then resolve the canonical query through the cache, preparing on
a miss. -/
def get_statement_raw (env : Env) (st : ConnState) (text : String) :
    Except DriverError Statement × ConnState :=
  match env.parseNamedParams text with
  | .error _ => (.error .Other, st)
  | .ok (named_params, raw_query) =>
    match cache_get st.cache raw_query with
    | some inner => (.ok ⟨inner, named_params⟩, st)
    | none =>
      match prepare_statement env st raw_query with
      | (.error e, st1) => (.error e, st1)
      | (.ok inner, st1) => (.ok ⟨inner, named_params⟩, st1)

/-- `Conn::get_statement` (stmt.rs lines 189-200) specialized to an
existing `Statement` handle: `Statement.info` yields the handle's own name
list and raw query, and the raw query is then resolved through the cache
exactly like raw text. -/
def get_statement_stmt (env : Env) (st : ConnState) (s : Statement) :
    Except DriverError Statement × ConnState :=
  match s.info with
  | .error e => (.error e, st)
  | .ok (named_params, raw_query) =>
    match cache_get st.cache raw_query with
    | some inner => (.ok ⟨inner, named_params⟩, st)
    | none =>
      match prepare_statement env st raw_query with
      | (.error e, st1) => (.error e, st1)
      | (.ok inner, st1) => (.ok ⟨inner, named_params⟩, st1)

/-- `mysql_common::constants::MAX_PAYLOAD_LEN`. -/
def MAX_PAYLOAD_LEN : Nat := 16777215

/-- Rust's `slice::chunks(m)`: consecutive chunks of at most `m` elements,
none for the empty slice.  (`chunks` panics on `m = 0`; that case is mapped
to the empty list and never reached, since the source calls it with
`MAX_PAYLOAD_LEN - 6`.) -/
def chunksOf (m : Nat) (l : List Nat) : List (List Nat) :=
  if h : m = 0 ∨ l = [] then []
  else
    l.take m :: chunksOf m (l.drop m)
termination_by l.length
decreasing_by
  simp only [List.length_drop]
  have hm : m ≠ 0 := fun hc => h (Or.inl hc)
  have hl : l ≠ [] := fun hc => h (Or.inr hc)
  have : 0 < l.length := List.length_pos.mpr hl
  omega

/-- Chunk sequence of one byte value in `send_long_data` (stmt.rs lines
304-309): `bytes.chunks(MAX_PAYLOAD_LEN - 6)` chained with one extra empty
chunk exactly when the value is empty. -/
def longDataChunks (bytes : List Nat) : List (List Nat) :=
  chunksOf (MAX_PAYLOAD_LEN - 6) bytes ++ (if bytes = [] then [[]] else [])

/-- Body of `send_long_data`'s enumerate loop for one value at position
`n` (stmt.rs lines 303-313): a `Value::Bytes` value contributes one
command per chunk, tagged with the statement id and its position; any
other value contributes nothing. -/
def longDataBlock (statement_id n : Nat) : Value → List Command
  | .Bytes b => (longDataChunks b).map (fun c => Command.sendLongData statement_id n c)
  | _ => []

/-- Long-data commands of `send_long_data`'s enumerate loop (stmt.rs lines
302-315), starting at parameter position `n`. -/
def longDataCmdsFrom (statement_id : Nat) : Nat → List Value → List Command
  | _, [] => []
  | n, v :: rest =>
    longDataBlock statement_id n v ++ longDataCmdsFrom statement_id (n + 1) rest

/-- All long-data commands for one parameter list (positions start at 0). -/
def longDataCommands (statement_id : Nat) (vals : List Value) : List Command :=
  longDataCmdsFrom statement_id 0 vals

/-- `Conn::send_long_data` (stmt.rs lines 298-318): writes every long-data
command in order, stopping at the first transport failure. -/
def send_long_data (env : Env) (statement_id : Nat) (vals : List Value) (st : ConnState) :
    Except DriverError Unit × ConnState :=
  writeCommands env (longDataCommands statement_id vals) st

/-- The `Params::Positional` arm of `Conn::execute_statement` (stmt.rs
lines 245-263): the arity check compares the declared u16 count (widened
losslessly) with the full-precision list length, while the error's
`supplied` field is the length truncated to u16 (`params.len() as u16`);
on a match the execute request is built, long data is sent first when the
builder demands it, and the execute payload is written. -/
def execPositional (env : Env) (st : ConnState) (statement : Statement) (vals : List Value) :
    Except DriverError Unit × ConnState :=
  if statement.num_params ≠ vals.length then
    (.error (.StmtParamsMismatch statement.num_params (vals.length % 65536)), st)
  else
    if env.buildAsLongData statement.id vals then
      match send_long_data env statement.id vals st with
      | (.error e, st1) => (.error e, st1)
      | (.ok _, st1) => writeCommand env (.execRequest statement.id vals) st1
    else
      writeCommand env (.execRequest statement.id vals) st

/-- `Conn::execute_statement` (stmt.rs lines 234-295).  The source's
`loop` re-enters the match after `Params::Named` is converted by
`into_positional`; the conversion always yields a positional set, so the
loop is unrolled into one call of the positional arm. -/
def execute_statement (env : Env) (st : ConnState) (statement : Statement) (params : Params) :
    Except DriverError Unit × ConnState :=
  match params with
  | .Positional vals => execPositional env st statement vals
  | .Named pairs =>
    match statement.named_params with
    | none => (.error .NamedParamsForPositionalQuery, st)
    | some names =>
      match env.intoPositional pairs names with
      | .error _ => (.error .Other, st)
      | .ok vals => execPositional env st statement vals
  | .Empty =>
    if 0 < statement.num_params then
      (.error (.StmtParamsMismatch statement.num_params 0), st)
    else
      writeCommand env (.execRequest statement.id []) st

/-- `Conn::close_statement` (stmt.rs lines 321-323). -/
def close_statement (env : Env) (st : ConnState) (statement_id : Nat) :
    Except DriverError Unit × ConnState :=
  writeCommand env (.stmtClose statement_id) st

/-! ### Concrete fixtures (sample environments, states and statements) -/

/-- Prepare response declaring no parameters and no result columns. -/
def spA : StmtPacket := { statement_id := 7, num_params := 0, num_columns := 0 }

/-- Prepare response declaring one parameter. -/
def spB : StmtPacket := { statement_id := 7, num_params := 1, num_columns := 0 }

def innerA : StmtInner :=
  { raw_query := "q", columns := none, params := none, stmt_packet := spA,
    connection_id := 1 }

/-- Metadata for the same query text as `innerA` but a different handle id. -/
def innerB : StmtInner :=
  { raw_query := "q", columns := none, params := none,
    stmt_packet := { statement_id := 8, num_params := 0, num_columns := 0 },
    connection_id := 1 }

def innerOld : StmtInner :=
  { raw_query := "old", columns := none, params := none,
    stmt_packet := { statement_id := 5, num_params := 0, num_columns := 0 },
    connection_id := 1 }

def innerNew : StmtInner :=
  { raw_query := "new", columns := none, params := none, stmt_packet := spA,
    connection_id := 1 }

def innerC6 : StmtInner :=
  { raw_query := "q6", columns := none, params := none, stmt_packet := spB,
    connection_id := 1 }

def innerC7 : StmtInner :=
  { raw_query := "q7", columns := none,
    params := some [Column.mk [1], Column.mk [2]],
    stmt_packet := { statement_id := 9, num_params := 2, num_columns := 0 },
    connection_id := 1 }

def stmtA : Statement := { inner := innerA, named_params := none }

def stmtC6 : Statement := { inner := innerC6, named_params := none }

/-- Environment whose transport never fails and whose parsers succeed. -/
def envBase : Env :=
  { writeFails := fun _ => false,
    parseStmtPacket := fun _ => .ok spA,
    columnFromPayload := fun pld => .ok ⟨pld⟩,
    buildAsLongData := fun _ _ => true,
    intoPositional := fun _ _ => .error (),
    parseNamedParams := fun s => .ok (none, s) }

/-- Environment whose transport fails exactly on COM_STMT_CLOSE. -/
def envCloseFail : Env :=
  { writeFails := fun c => match c with
      | .stmtClose _ => true
      | _ => false,
    parseStmtPacket := fun _ => .ok spA,
    columnFromPayload := fun pld => .ok ⟨pld⟩,
    buildAsLongData := fun _ _ => false,
    intoPositional := fun _ _ => .error (),
    parseNamedParams := fun s => .ok (none, s) }

/-- Environment whose prepare-response parser always fails. -/
def envParseFail : Env :=
  { writeFails := fun _ => false,
    parseStmtPacket := fun _ => .error (),
    columnFromPayload := fun pld => .ok ⟨pld⟩,
    buildAsLongData := fun _ _ => false,
    intoPositional := fun _ _ => .error (),
    parseNamedParams := fun s => .ok (none, s) }

/-- Environment whose prepare-response parser declares two parameters. -/
def envC7 : Env :=
  { writeFails := fun _ => false,
    parseStmtPacket := fun _ => .ok { statement_id := 9, num_params := 2, num_columns := 0 },
    columnFromPayload := fun pld => .ok ⟨pld⟩,
    buildAsLongData := fun _ _ => false,
    intoPositional := fun _ _ => .error (),
    parseNamedParams := fun s => .ok (none, s) }

def cache0 : StmtCache := { capacity := 2, entries := [] }

def st0 : ConnState :=
  { incoming := [], written := [], cache := cache0, deprecate_eof := true, conn_id := 1 }

/-- State whose cache holds metadata for query "q" under handle id 8. -/
def stC3 : ConnState :=
  { incoming := [], written := [],
    cache := { capacity := 2, entries := [("q", innerB)] },
    deprecate_eof := true, conn_id := 1 }

/-- State with an empty cache and one incoming prepare response, so
resolving "q" misses the cache and triggers a fresh prepare. -/
def stC3miss : ConnState :=
  { incoming := [[0]], written := [], cache := { capacity := 2, entries := [] },
    deprecate_eof := true, conn_id := 1 }

/-- `stC3miss` after the fresh prepare of "q". -/
def stC3missFin : ConnState :=
  { incoming := [], written := [Command.stmtPrepare "q"],
    cache := { capacity := 2, entries := [("q", innerA)] },
    deprecate_eof := true, conn_id := 1 }

/-- State with one incoming packet and a full capacity-1 cache. -/
def stC4 : ConnState :=
  { incoming := [[0]], written := [],
    cache := { capacity := 1, entries := [("old", innerOld)] },
    deprecate_eof := true, conn_id := 1 }

/-- `stC4` after the metadata phase of preparing "new". -/
def stC4meta : ConnState :=
  { incoming := [], written := [Command.stmtPrepare "new"],
    cache := { capacity := 1, entries := [("old", innerOld)] },
    deprecate_eof := true, conn_id := 1 }

def stC5 : ConnState :=
  { incoming := [[9]], written := [], cache := cache0, deprecate_eof := true, conn_id := 1 }

/-- State with a prepare response, two column definitions and an EOF marker,
on a connection without the deprecate-EOF capability. -/
def stC7 : ConnState :=
  { incoming := [[0], [1], [2], [3]], written := [],
    cache := { capacity := 2, entries := [] },
    deprecate_eof := false, conn_id := 1 }

/-- `stC7` after preparing "q7". -/
def stC7fin : ConnState :=
  { incoming := [], written := [Command.stmtPrepare "q7"],
    cache := { capacity := 2, entries := [("q7", innerC7)] },
    deprecate_eof := false, conn_id := 1 }

/-! ### Helper lemmas about chunking -/

theorem chunksOf_nil (m : Nat) : chunksOf m [] = [] := by
  rw [chunksOf]
  simp

theorem chunksOf_cons (m : Nat) (l : List Nat) (hm : m ≠ 0) (hl : l ≠ []) :
    chunksOf m l = l.take m :: chunksOf m (l.drop m) := by
  rw [chunksOf]
  simp [hm, hl]

theorem chunksOf_flatten (m : Nat) (hm : 0 < m) (l : List Nat) :
    (chunksOf m l).flatten = l := by
  suffices hgen : ∀ (n : Nat) (l : List Nat), l.length = n → (chunksOf m l).flatten = l from
    hgen l.length l rfl
  intro n
  induction n using Nat.strong_induction_on with
  | _ n ih =>
    intro l hn
    by_cases hl : l = []
    · subst hl
      simp [chunksOf_nil]
    · rw [chunksOf_cons m l (by omega) hl]
      have hdrop : (l.drop m).length < l.length := by
        have hpos : 0 < l.length := List.length_pos.mpr hl
        simp only [List.length_drop]
        omega
      subst hn
      rw [List.flatten_cons, ih (l.drop m).length hdrop (l.drop m) rfl]
      exact List.take_append_drop m l

theorem chunksOf_length (m : Nat) (hm : 0 < m) (l : List Nat) (hl : l ≠ []) :
    (chunksOf m l).length = (l.length + m - 1) / m := by
  suffices hgen : ∀ (n : Nat) (l : List Nat), l.length = n → l ≠ [] →
      (chunksOf m l).length = (l.length + m - 1) / m from hgen l.length l rfl hl
  intro n
  induction n using Nat.strong_induction_on with
  | _ n ih =>
    intro l hn hl
    rw [chunksOf_cons m l (by omega) hl]
    have hpos : 0 < l.length := List.length_pos.mpr hl
    by_cases hsmall : l.length ≤ m
    · have hdrop : l.drop m = [] := by
        apply List.eq_nil_of_length_eq_zero
        simp only [List.length_drop]
        omega
      rw [hdrop]
      simp only [chunksOf_nil, List.length_cons, List.length_nil]
      exact (Nat.div_eq_of_lt_le (by omega) (by omega)).symm
    · have hdlen : (l.drop m).length = l.length - m := by
        simp [List.length_drop]
      have hdne : l.drop m ≠ [] := by
        intro hc
        rw [hc] at hdlen
        simp at hdlen
        omega
      subst hn
      rw [List.length_cons,
        ih (l.drop m).length (by omega) (l.drop m) rfl hdne, hdlen]
      have heq : l.length + m - 1 = (l.length - m + m - 1) + m := by omega
      rw [heq, Nat.add_div_right _ hm]

theorem chunksOf_mem_le (m : Nat) (l : List Nat) (c : List Nat)
    (hc : c ∈ chunksOf m l) : c.length ≤ m := by
  suffices hgen : ∀ (n : Nat) (l : List Nat), l.length = n → ∀ c ∈ chunksOf m l,
      c.length ≤ m from hgen l.length l rfl c hc
  intro n
  induction n using Nat.strong_induction_on with
  | _ n ih =>
    intro l hn c hc
    by_cases hm : m = 0
    · subst hm
      rw [chunksOf] at hc
      simp at hc
    · by_cases hl : l = []
      · subst hl
        rw [chunksOf_nil] at hc
        simp at hc
      · rw [chunksOf_cons m l hm hl] at hc
        rcases List.mem_cons.mp hc with hc1 | hc1
        · subst hc1
          rw [List.length_take]
          omega
        · have hdrop : (l.drop m).length < l.length := by
            have hpos : 0 < l.length := List.length_pos.mpr hl
            simp only [List.length_drop]
            omega
          subst hn
          exact ih (l.drop m).length hdrop (l.drop m) rfl c hc1

theorem longDataChunks_ne_nil (bytes : List Nat) : longDataChunks bytes ≠ [] := by
  unfold longDataChunks
  by_cases hb : bytes = []
  · simp [hb]
  · rw [chunksOf_cons _ _ (by norm_num [MAX_PAYLOAD_LEN]) hb]
    simp

/-! ### Helper lemmas about long-data commands -/

theorem longDataBlock_not_bytes (statement_id n : Nat) (v : Value)
    (hv : ∀ b, v ≠ .Bytes b) : longDataBlock statement_id n v = [] := by
  cases v with
  | Bytes b => exact absurd rfl (hv b)
  | NULL => rfl
  | IntV i => rfl
  | UIntV u => rfl
  | FloatBits bits => rfl
  | DoubleBits bits => rfl
  | Date y mo d hh mi s mic => rfl
  | Time neg d hh mi s mic => rfl

theorem longDataCmdsFrom_mem (statement_id : Nat) (vals : List Value) :
    ∀ (n : Nat) (cmd : Command), cmd ∈ longDataCmdsFrom statement_id n vals →
      ∃ i b chunk, cmd = .sendLongData statement_id (n + i) chunk ∧
        vals[i]? = some (.Bytes b) ∧ chunk ∈ longDataChunks b := by
  induction vals with
  | nil =>
    intro n cmd h
    simp [longDataCmdsFrom] at h
  | cons v rest ih =>
    intro n cmd h
    rw [longDataCmdsFrom] at h
    rcases List.mem_append.mp h with h1 | h1
    case inr =>
      rcases ih (n + 1) cmd h1 with ⟨i, b, chunk, hcmd, hidx, hch⟩
      refine ⟨i + 1, b, chunk, ?_, ?_, hch⟩
      · rw [hcmd]
        congr 1
        omega
      · simpa using hidx
    case inl =>
      cases v with
      | Bytes b =>
        rcases List.mem_map.mp h1 with ⟨chunk, hchunk, hcmd⟩
        refine ⟨0, b, chunk, ?_, by simp, hchunk⟩
        rw [← hcmd]
        simp
      | NULL => simp [longDataBlock] at h1
      | IntV i => simp [longDataBlock] at h1
      | UIntV u => simp [longDataBlock] at h1
      | FloatBits bits => simp [longDataBlock] at h1
      | DoubleBits bits => simp [longDataBlock] at h1
      | Date y mo d hh mi s mic => simp [longDataBlock] at h1
      | Time neg d hh mi s mic => simp [longDataBlock] at h1

theorem longDataCmdsFrom_mem_bytes (statement_id : Nat) (vals : List Value) :
    ∀ (n i : Nat) (b : List Nat), vals[i]? = some (.Bytes b) →
      ∃ chunk, Command.sendLongData statement_id (n + i) chunk ∈
        longDataCmdsFrom statement_id n vals := by
  induction vals with
  | nil =>
    intro n i b h
    simp at h
  | cons v rest ih =>
    intro n i b h
    cases i with
    | zero =>
      simp at h
      subst h
      obtain ⟨c, hc⟩ : ∃ c, c ∈ longDataChunks b := by
        rcases hne : longDataChunks b with _ | ⟨c, cs⟩
        · exact absurd hne (longDataChunks_ne_nil b)
        · exact ⟨c, List.mem_cons_self c cs⟩
      refine ⟨c, ?_⟩
      rw [longDataCmdsFrom]
      apply List.mem_append.mpr
      left
      simp only [Nat.add_zero, longDataBlock]
      exact List.mem_map.mpr ⟨c, hc, rfl⟩
    | succ i1 =>
      simp at h
      rcases ih (n + 1) i1 b h with ⟨chunk, hchunk⟩
      refine ⟨chunk, ?_⟩
      rw [longDataCmdsFrom]
      apply List.mem_append.mpr
      right
      have harith : n + (i1 + 1) = (n + 1) + i1 := by omega
      rw [harith]
      exact hchunk

theorem filter_sendLongData_ne (statement_id n j : Nat) (hnj : n ≠ j)
    (chunks : List (List Nat)) :
    (chunks.map (fun c => Command.sendLongData statement_id n c)).filter
      (Command.longDataAt j) = [] := by
  rw [List.filter_eq_nil_iff]
  intro cmd hcmd
  rcases List.mem_map.mp hcmd with ⟨c, hc, hcmd1⟩
  subst hcmd1
  simp [Command.longDataAt, hnj]

theorem longDataCmdsFrom_filter_lt (statement_id : Nat) (vals : List Value) (n i : Nat)
    (hi : i < n) :
    (longDataCmdsFrom statement_id n vals).filter (Command.longDataAt i) = [] := by
  rw [List.filter_eq_nil_iff]
  intro cmd hcmd
  rcases longDataCmdsFrom_mem statement_id vals n cmd hcmd with ⟨j, b, chunk, hcmd1, _, _⟩
  subst hcmd1
  simp [Command.longDataAt]
  omega

theorem longDataCmdsFrom_filter_at (statement_id : Nat) (vals : List Value) :
    ∀ (n i : Nat) (b : List Nat), vals[i]? = some (.Bytes b) →
      (longDataCmdsFrom statement_id n vals).filter (Command.longDataAt (n + i))
        = (longDataChunks b).map (fun c => Command.sendLongData statement_id (n + i) c) := by
  induction vals with
  | nil =>
    intro n i b h
    simp at h
  | cons v rest ih =>
    intro n i b h
    cases i with
    | zero =>
      simp at h
      subst h
      rw [longDataCmdsFrom, List.filter_append,
        longDataCmdsFrom_filter_lt statement_id rest (n + 1) (n + 0) (by omega),
        List.append_nil]
      simp only [longDataBlock]
      rw [List.filter_map]
      have hall : (longDataChunks b).filter
          ((Command.longDataAt (n + 0)) ∘ fun c => Command.sendLongData statement_id n c)
            = longDataChunks b := by
        rw [List.filter_eq_self]
        intro c hc
        simp [Function.comp, Command.longDataAt]
      rw [hall]
      simp
    | succ i1 =>
      simp at h
      rw [longDataCmdsFrom, List.filter_append]
      have hblock : (longDataBlock statement_id n v).filter
          (Command.longDataAt (n + (i1 + 1))) = [] := by
        cases v with
        | Bytes b2 => exact filter_sendLongData_ne statement_id n (n + (i1 + 1)) (by omega) _
        | NULL => simp [longDataBlock]
        | IntV i => simp [longDataBlock]
        | UIntV u => simp [longDataBlock]
        | FloatBits bits => simp [longDataBlock]
        | DoubleBits bits => simp [longDataBlock]
        | Date y mo d hh mi s mic => simp [longDataBlock]
        | Time neg d hh mi s mic => simp [longDataBlock]
      rw [hblock, List.nil_append]
      have harith : n + (i1 + 1) = (n + 1) + i1 := by omega
      rw [harith, ih (n + 1) i1 b h]

/-! ### Helper lemmas about transport writes and reads -/

theorem writeCommands_ok (env : Env) (hw : ∀ c, env.writeFails c = false) (cs : List Command) :
    ∀ st : ConnState,
      writeCommands env cs st = (.ok (), { st with written := st.written ++ cs }) := by
  induction cs with
  | nil =>
    intro st
    simp [writeCommands]
  | cons c rest ih =>
    intro st
    simp only [writeCommands, writeCommand, hw c]
    simp only [Bool.false_eq_true, if_false]
    rw [ih]
    simp

theorem writeCommand_inv_ok (env : Env) (c : Command) (st st1 : ConnState) (u : Unit)
    (h : writeCommand env c st = (.ok u, st1)) :
    env.writeFails c = false ∧ st1 = { st with written := st.written ++ [c] } := by
  rw [writeCommand] at h
  by_cases hw : env.writeFails c
  · rw [if_pos hw] at h
    simp at h
  · rw [if_neg hw] at h
    simp only [Prod.mk.injEq] at h
    refine ⟨by simpa using hw, h.2.symm⟩

theorem read_packet_inv_ok (st st1 : ConnState) (p : List Nat)
    (h : read_packet st = (.ok p, st1)) :
    st.incoming = p :: st1.incoming ∧
      st1 = { st with incoming := st.incoming.drop 1 } := by
  rw [read_packet] at h
  cases hin : st.incoming with
  | nil =>
    rw [hin] at h
    simp at h
  | cons q rest =>
    rw [hin] at h
    simp only [Prod.mk.injEq, Except.ok.injEq] at h
    obtain ⟨hq, hst⟩ := h
    subst hq
    subst hst
    simp [hin]

theorem read_packets_inv (n : Nat) :
    ∀ (st st1 : ConnState) (ps : List (List Nat)),
      read_packets n st = (.ok ps, st1) →
      n ≤ st.incoming.length ∧ ps = st.incoming.take n ∧
        st1 = { st with incoming := st.incoming.drop n } := by
  induction n with
  | zero =>
    intro st st1 ps h
    simp only [read_packets, Prod.mk.injEq, Except.ok.injEq] at h
    obtain ⟨hps, hst⟩ := h
    subst hps
    subst hst
    simp
  | succ n ih =>
    intro st st1 ps h
    rw [read_packets] at h
    split at h
    next e st2 hrp => simp at h
    next p st2 hrp =>
      split at h
      next e st3 hrec => simp at h
      next qs st3 hrec =>
        simp only [Prod.mk.injEq, Except.ok.injEq] at h
        obtain ⟨hps, hst⟩ := h
        subst hps
        subst hst
        obtain ⟨hcons, hst2⟩ := read_packet_inv_ok st st2 p hrp
        obtain ⟨hlen, hqs, hst3⟩ := ih st2 st3 qs hrec
        subst hst2
        refine ⟨?_, ?_, ?_⟩
        · simp only [List.length_drop] at hlen ⊢
          have hpos : st.incoming ≠ [] := by
            intro hc
            rw [hc] at hcons
            simp at hcons
          have : 0 < st.incoming.length := List.length_pos.mpr hpos
          omega
        · rw [hqs]
          rw [hcons]
          simp
        · rw [hst3]
          simp [List.drop_drop]

theorem collectResults_length {β : Type} :
    ∀ (l : List (Except Unit β)) (bs : List β),
      collectResults l = .ok bs → bs.length = l.length := by
  intro l
  induction l with
  | nil =>
    intro bs h
    simp only [collectResults, Except.ok.injEq] at h
    subst h
    rfl
  | cons x rest ih =>
    intro bs h
    cases x with
    | error e => simp [collectResults] at h
    | ok b =>
      rw [collectResults] at h
      rcases hrec : collectResults rest with e | bs1
      · rw [hrec] at h
        simp at h
      · rw [hrec] at h
        simp only [Except.ok.injEq] at h
        subst h
        simp [ih bs1 hrec]

theorem read_column_defs_inv (env : Env) (st st' : ConnState) (num : Nat)
    (defs : List Column)
    (h : read_column_defs env st num = (.ok defs, st')) :
    defs.length = num ∧
    st' = { st with incoming :=
      st.incoming.drop (num + (if st.deprecate_eof then 0 else 1)) } := by
  rw [read_column_defs] at h
  split at h
  next e st1 hrp => simp at h
  next packets st1 hrp =>
    obtain ⟨hlen, hpk, hst1⟩ := read_packets_inv num st st1 packets hrp
    split at h
    next e hcr => simp at h
    next cols hcr =>
      have hcols : cols.length = num := by
        have h1 := collectResults_length _ cols hcr
        rw [List.length_map, hpk, List.length_take] at h1
        omega
      have hde1 : st1.deprecate_eof = st.deprecate_eof := by
        rw [hst1]
      split at h
      next hde =>
        simp only [Prod.mk.injEq, Except.ok.injEq] at h
        obtain ⟨hdefs, hst⟩ := h
        subst hdefs
        subst hst
        have hds : st.deprecate_eof = true := by
          rw [← hde1]
          exact hde
        refine ⟨hcols, ?_⟩
        rw [hst1]
        simp [hds]
      next hde =>
        split at h
        next e st2 hrp2 => simp at h
        next p2 st2 hrp2 =>
          simp only [Prod.mk.injEq, Except.ok.injEq] at h
          obtain ⟨hdefs, hst⟩ := h
          subst hdefs
          subst hst
          obtain ⟨hcons2, hst2⟩ := read_packet_inv_ok st1 st2 p2 hrp2
          have hde2 : st.deprecate_eof = false := by
            rw [← hde1]
            simpa using hde
          refine ⟨hcols, ?_⟩
          rw [hst2, hst1]
          simp [hde2, List.drop_drop]

/-! ### Helper lemmas about statement metadata accessors -/

theorem num_params_with_params (s : StmtInner) (ps : List Column) :
    (s.with_params ps).num_params = s.num_params := rfl

theorem num_columns_with_params (s : StmtInner) (ps : List Column) :
    (s.with_params ps).num_columns = s.num_columns := rfl

theorem num_params_with_columns (s : StmtInner) (cs : List Column) :
    (s.with_columns cs).num_params = s.num_params := rfl

theorem num_columns_with_columns (s : StmtInner) (cs : List Column) :
    (s.with_columns cs).num_columns = s.num_columns := rfl

theorem paramsList_with_columns (s : StmtInner) (cs : List Column) :
    (s.with_columns cs).paramsList = s.paramsList := rfl

theorem columnsList_with_params (s : StmtInner) (ps : List Column) :
    (s.with_params ps).columnsList = s.columnsList := rfl

theorem raw_query_with_params (s : StmtInner) (ps : List Column) :
    (s.with_params ps).raw_query = s.raw_query := rfl

theorem raw_query_with_columns (s : StmtInner) (cs : List Column) :
    (s.with_columns cs).raw_query = s.raw_query := rfl

theorem paramsList_with_params (s : StmtInner) (ps : List Column) :
    (s.with_params ps).paramsList = if ps.isEmpty then [] else ps := by
  by_cases hp : ps.isEmpty <;>
    simp [StmtInner.with_params, StmtInner.paramsList, hp]

theorem columnsList_with_columns (s : StmtInner) (cs : List Column) :
    (s.with_columns cs).columnsList = if cs.isEmpty then [] else cs := by
  by_cases hc : cs.isEmpty <;>
    simp [StmtInner.with_columns, StmtInner.columnsList, hc]

/-! ### Helper lemma about the cache -/

theorem cache_stmt_get_self (inner : StmtInner) (c : StmtCache) (hcap : 0 < c.capacity)
    (cache1 : StmtCache) (ev : Option StmtInner)
    (h : cache_stmt inner c = (cache1, ev)) :
    cache_get cache1 inner.raw_query = some inner := by
  rw [cache_stmt] at h
  by_cases hlen : c.capacity <
      ((inner.raw_query, inner) :: c.entries.filter (fun e => e.1 ≠ inner.raw_query)).length
  · rw [if_pos hlen] at h
    rw [Prod.mk.injEq] at h
    obtain ⟨h1, h2⟩ := h
    subst h1
    have hpr : c.entries.filter (fun e => e.1 ≠ inner.raw_query) ≠ [] := by
      intro hc
      rw [hc] at hlen
      simp at hlen
      omega
    rw [cache_get]
    simp only [List.dropLast_cons_of_ne_nil hpr]
    simp [List.find?_cons]
  · rw [if_neg hlen] at h
    rw [Prod.mk.injEq] at h
    obtain ⟨h1, h2⟩ := h
    subst h1
    rw [cache_get]
    simp [List.find?_cons]

/-! ### Inversion of the prepare protocol -/

theorem prepare_meta_group2_inv (env : Env) (st3 st' : ConnState) (inner1 inner : StmtInner)
    (hnone : inner1.columns = none)
    (h : (if 0 < inner1.num_columns then
            match read_column_defs env st3 inner1.num_columns with
            | (.error e, st4) => (.error e, st4)
            | (.ok cs, st4) => (.ok (inner1.with_columns cs), st4)
          else ((.ok inner1 : Except DriverError StmtInner), st3))
        = ((.ok inner : Except DriverError StmtInner), st')) :
    inner.num_params = inner1.num_params ∧
    inner.num_columns = inner1.num_columns ∧
    inner.paramsList = inner1.paramsList ∧
    inner.raw_query = inner1.raw_query ∧
    inner.columnsList.length = inner1.num_columns ∧
    st'.incoming = st3.incoming.drop
      (if inner1.num_columns = 0 then 0
       else inner1.num_columns + (if st3.deprecate_eof then 0 else 1)) ∧
    st'.cache = st3.cache := by
  by_cases hc : 0 < inner1.num_columns
  · rw [if_pos hc] at h
    split at h
    next e st4 hrc => simp at h
    next cs st4 hrc =>
      obtain ⟨hcslen, hst4⟩ := read_column_defs_inv env st3 st4 _ cs hrc
      simp only [Prod.mk.injEq, Except.ok.injEq] at h
      obtain ⟨hinner, hst⟩ := h
      subst hinner
      subst hst
      have hcsne : ¬cs.isEmpty := by
        intro hcse
        rw [List.isEmpty_iff] at hcse
        rw [hcse] at hcslen
        simp at hcslen
        omega
      refine ⟨rfl, rfl, rfl, rfl, ?_, ?_, ?_⟩
      · rw [columnsList_with_columns]
        simp only [hcsne, if_false]
        exact hcslen
      · rw [hst4]
        rw [if_neg (show ¬inner1.num_columns = 0 by omega)]
      · rw [hst4]
  · rw [if_neg hc] at h
    simp only [Prod.mk.injEq, Except.ok.injEq] at h
    obtain ⟨hinner, hst⟩ := h
    subst hinner
    subst hst
    have hc0 : inner1.num_columns = 0 := by omega
    refine ⟨rfl, rfl, rfl, rfl, ?_, ?_, rfl⟩
    · rw [StmtInner.columnsList, hnone, hc0]
      rfl
    · rw [if_pos hc0]
      simp

theorem prepare_meta_inv (env : Env) (st st' : ConnState) (q : String) (inner : StmtInner)
    (h : prepare_meta env st q = (.ok inner, st')) :
    st'.incoming = st.incoming.drop
      (1 + (if inner.num_params = 0 then 0
            else inner.num_params + (if st.deprecate_eof then 0 else 1))
         + (if inner.num_columns = 0 then 0
            else inner.num_columns + (if st.deprecate_eof then 0 else 1))) ∧
    inner.paramsList.length = inner.num_params ∧
    inner.columnsList.length = inner.num_columns ∧
    st'.cache = st.cache ∧ inner.raw_query = q := by
  simp only [prepare_meta] at h
  split at h
  next e st1 hwc => simp at h
  next u st1 hwc =>
    obtain ⟨hwf, hst1⟩ := writeCommand_inv_ok env _ st st1 u hwc
    split at h
    next e st2 hrp => simp at h
    next pkt st2 hrp =>
      obtain ⟨hcons, hst2⟩ := read_packet_inv_ok st1 st2 pkt hrp
      split at h
      next herr => simp at h
      next sp hsp =>
        split at h
        next e st3 hg1 => simp at h
        next inner1 st3 hg1 =>
          have hde2 : st2.deprecate_eof = st.deprecate_eof := by
            rw [hst2, hst1]
          have hin2 : st2.incoming = st.incoming.drop 1 := by
            rw [hst2, hst1]
          have hca2 : st2.cache = st.cache := by
            rw [hst2, hst1]
          have hrecnp : (StmtInner.mk q none none sp st2.conn_id).num_params
              = sp.num_params := rfl
          rw [hrecnp] at hg1
          by_cases hp : 0 < sp.num_params
          · rw [if_pos hp] at hg1
            split at hg1
            next e st4 hrc => simp at hg1
            next ps st4 hrc =>
              obtain ⟨hpslen, hst4⟩ := read_column_defs_inv env st2 st4 _ ps hrc
              simp only [Prod.mk.injEq, Except.ok.injEq] at hg1
              obtain ⟨hinner1, hst3⟩ := hg1
              subst hinner1
              subst hst3
              obtain ⟨g1, g2, g3, g4, g5, g6, g7⟩ :=
                prepare_meta_group2_inv env st4 st' _ inner (by rfl) h
              have hpsne : ¬ps.isEmpty := by
                intro hpse
                rw [List.isEmpty_iff] at hpse
                rw [hpse] at hpslen
                simp at hpslen
                omega
              have hnp : inner.num_params = sp.num_params := by
                rw [g1, num_params_with_params]
                exact hrecnp
              have hC : ((StmtInner.mk q none none sp st2.conn_id).with_params ps).num_columns
                  = sp.num_columns := rfl
              have hnc2 : inner.num_columns = sp.num_columns := g2.trans hC
              have hde4 : st4.deprecate_eof = st.deprecate_eof := by
                rw [hst4]
                exact hde2
              have hin4 : st4.incoming = st.incoming.drop
                  (1 + (sp.num_params + (if st.deprecate_eof then 0 else 1))) := by
                rw [hst4]
                simp only [hde2, hin2, List.drop_drop]
              refine ⟨?_, ?_, ?_, ?_, ?_⟩
              · rw [g6, hC, hde4, hin4, List.drop_drop, hnp, hnc2,
                  if_neg (show ¬sp.num_params = 0 by omega)]
              · rw [g3, paramsList_with_params]
                simp only [hpsne, if_false]
                rw [hnp]
                exact hpslen
              · rw [g5, g2]
              · rw [g7, hst4]
                exact hca2
              · rw [g4, raw_query_with_params]
          · rw [if_neg hp] at hg1
            simp only [Prod.mk.injEq, Except.ok.injEq] at hg1
            obtain ⟨hinner1, hst3⟩ := hg1
            subst hinner1
            subst hst3
            obtain ⟨g1, g2, g3, g4, g5, g6, g7⟩ :=
              prepare_meta_group2_inv env st2 st' _ inner (by rfl) h
            have hp0 : sp.num_params = 0 := by omega
            have hnp : inner.num_params = 0 := by
              rw [g1]
              exact hp0
            have hC0 : (StmtInner.mk q none none sp st2.conn_id).num_columns
                = sp.num_columns := rfl
            have hnc2 : inner.num_columns = sp.num_columns := g2.trans hC0
            refine ⟨?_, ?_, ?_, ?_, ?_⟩
            · rw [g6, hC0, hde2, hin2, List.drop_drop, if_pos hnp, hnc2]
            · rw [g3, hnp]
              rfl
            · rw [g5, g2]
            · rw [g7]
              exact hca2
            · exact g4

theorem prepare_statement_inv_ok (env : Env) (st st' : ConnState) (q : String)
    (inner : StmtInner) (h : prepare_statement env st q = (.ok inner, st')) :
    ∃ st1 : ConnState, prepare_meta env st q = (.ok inner, st1) ∧
      st'.incoming = st1.incoming := by
  rw [prepare_statement] at h
  split at h
  next e st1 hmeta => simp at h
  next inner0 st1 hmeta =>
    split at h
    next cache1 evicted hcs =>
      cases evicted with
      | none =>
        simp only [Prod.mk.injEq, Except.ok.injEq] at h
        obtain ⟨hi, hs⟩ := h
        subst hi
        subst hs
        exact ⟨st1, hmeta, rfl⟩
      | some old =>
        simp only [Prod.mk.injEq, Except.ok.injEq] at h
        split at h
        next e st3 hwc => simp at h
        next u st3 hwc =>
          obtain ⟨hwf, hst3⟩ := writeCommand_inv_ok env _ _ st3 u hwc
          simp only [Prod.mk.injEq, Except.ok.injEq] at h
          obtain ⟨hi, hs⟩ := h
          subst hi
          subst hs
          refine ⟨st1, hmeta, ?_⟩
          rw [hst3]

/-! ### Helper lemma about the positional execute arm -/

theorem execPositional_ok (env : Env) (st : ConnState) (statement : Statement)
    (vals : List Value) (hw : ∀ c, env.writeFails c = false)
    (heq : statement.num_params = vals.length) :
    execPositional env st statement vals
      = (.ok (), { st with written :=
          st.written
            ++ (if env.buildAsLongData statement.id vals
                then longDataCommands statement.id vals else [])
            ++ [Command.execRequest statement.id vals] }) := by
  rw [execPositional,
    if_neg (show ¬statement.num_params ≠ vals.length from fun hno => hno heq)]
  by_cases hlong : env.buildAsLongData statement.id vals
  · rw [if_pos hlong, if_pos hlong, send_long_data, writeCommands_ok env hw]
    simp only [writeCommand, hw, Bool.false_eq_true, if_false]
  · rw [if_neg hlong, if_neg hlong]
    simp only [writeCommand, hw, Bool.false_eq_true, if_false]
    simp

/-! ### Claim theorems -/

/-- C1 (as stated, refuted): the claim says a positional arity mismatch
reports `supplied = L`, but for `L = 65536` the code (`params.len() as u16`)
reports `supplied = 0`, not 65536: executing a 0-parameter statement with
65536 positional values yields the error `(required = 0, supplied = 0)`,
which differs from the claimed `(required = 0, supplied = 65536)`. -/
theorem C1_counterexample :
    (execute_statement envBase st0 stmtA
        (.Positional (List.replicate 65536 .NULL))).1
      = .error (.StmtParamsMismatch 0 0) ∧
    DriverError.StmtParamsMismatch 0 0 ≠ DriverError.StmtParamsMismatch 0 65536 := by
  constructor
  · have hne : stmtA.num_params ≠ (List.replicate 65536 (Value.NULL : Value)).length := by
      rw [List.length_replicate]
      decide
    show (execPositional envBase st0 stmtA (List.replicate 65536 Value.NULL)).1
      = .error (.StmtParamsMismatch 0 0)
    rw [execPositional, if_pos hne, List.length_replicate]
    rfl
  · decide

/-- C1 (amended): with a transport that accepts every write, executing with
a Positional set of length L on a statement declaring K parameters succeeds
and transmits the execute payload iff L = K (the comparison is at full
precision); otherwise it fails with a mismatch error reporting
`required = K` and `supplied = L mod 2^16` (equal to L whenever
L < 65536); the Empty set fails with `(required = K, supplied = 0)` when
K > 0 and otherwise sends an execute payload with zero bound values. -/
theorem C1_arity_check_with_truncated_supplied (env : Env) (st : ConnState)
    (statement : Statement) (vals : List Value)
    (hw : ∀ c, env.writeFails c = false) :
    (statement.num_params = vals.length →
      execute_statement env st statement (.Positional vals)
        = (.ok (), { st with written :=
            st.written
              ++ (if env.buildAsLongData statement.id vals
                  then longDataCommands statement.id vals else [])
              ++ [Command.execRequest statement.id vals] })) ∧
    (statement.num_params ≠ vals.length →
      execute_statement env st statement (.Positional vals)
        = (.error (.StmtParamsMismatch statement.num_params (vals.length % 65536)), st)) ∧
    (0 < statement.num_params →
      execute_statement env st statement .Empty
        = (.error (.StmtParamsMismatch statement.num_params 0), st)) ∧
    (statement.num_params = 0 →
      execute_statement env st statement .Empty
        = (.ok (), { st with written :=
            st.written ++ [Command.execRequest statement.id []] })) := by
  refine ⟨?_, ?_, ?_, ?_⟩
  · intro heq
    simp only [execute_statement]
    exact execPositional_ok env st statement vals hw heq
  · intro hne
    simp only [execute_statement, execPositional, if_pos hne]
  · intro hpos
    simp only [execute_statement, if_pos hpos]
  · intro h0
    simp only [execute_statement, if_neg (show ¬0 < statement.num_params by omega)]
    simp only [writeCommand, hw, Bool.false_eq_true, if_false]

/-- C1 witness: a concrete successful execute with matching arity. -/
theorem C1_witness :
    execute_statement envBase st0 stmtA (.Positional [])
      = (.ok (), { st0 with written := [Command.execRequest 7 []] }) := by
  have h := (C1_arity_check_with_truncated_supplied envBase st0 stmtA []
    (fun c => rfl)).1 rfl
  simpa [envBase, st0, stmtA, innerA, spA, Statement.id, StmtInner.id,
    longDataCommands, longDataCmdsFrom] using h

/-- C2: for a byte value of length N with chunk limit
M = MAX_PAYLOAD_LEN - 6, the long-data chunk sequence is never empty, its
in-order concatenation restores the N original bytes, every chunk is at
most M bytes, there are exactly ceil(N/M) = (N + M - 1) / M chunks for
N > 0, and for N = 0 exactly one chunk of length 0 is produced. -/
theorem C2_long_data_chunking (bytes : List Nat) :
    longDataChunks bytes ≠ [] ∧
    (longDataChunks bytes).flatten = bytes ∧
    (∀ c ∈ longDataChunks bytes, c.length ≤ MAX_PAYLOAD_LEN - 6) ∧
    (bytes ≠ [] → (longDataChunks bytes).length
      = (bytes.length + (MAX_PAYLOAD_LEN - 6) - 1) / (MAX_PAYLOAD_LEN - 6)) ∧
    (bytes = [] → longDataChunks bytes = [[]]) := by
  have hm : 0 < MAX_PAYLOAD_LEN - 6 := by norm_num [MAX_PAYLOAD_LEN]
  refine ⟨longDataChunks_ne_nil bytes, ?_, ?_, ?_, ?_⟩
  · rw [longDataChunks]
    by_cases hb : bytes = []
    · subst hb
      simp [chunksOf_nil]
    · rw [if_neg hb, List.append_nil, chunksOf_flatten _ hm]
  · intro c hc
    rw [longDataChunks] at hc
    rcases List.mem_append.mp hc with hc1 | hc1
    · exact chunksOf_mem_le _ _ c hc1
    · by_cases hb : bytes = []
      · rw [if_pos hb] at hc1
        simp at hc1
        simp [hc1]
      · rw [if_neg hb] at hc1
        simp at hc1
  · intro hb
    rw [longDataChunks, if_neg hb, List.append_nil]
    exact chunksOf_length _ hm bytes hb
  · intro hb
    subst hb
    rw [longDataChunks]
    simp [chunksOf_nil]

/-- C2 witness: the concrete chunking of a small byte value. -/
theorem C2_witness :
    (longDataChunks [1, 2]).flatten = [1, 2] ∧
    (longDataChunks [1, 2]).length = 1 := by
  have h := C2_long_data_chunking [1, 2]
  refine ⟨h.2.1, ?_⟩
  have h4 := h.2.2.2.1 (by decide)
  rw [h4]
  norm_num [MAX_PAYLOAD_LEN]

/-- C3 (as stated, refuted): resolving an existing `Statement` handle does
perform a cache lookup: with a cache holding different metadata (handle
id 8) under the same query text, resolving a handle built on metadata with
handle id 7 returns the cached metadata, not the handle's own. -/
theorem C3_counterexample :
    (get_statement_stmt envBase stC3 stmtA).1 = .ok ⟨innerB, none⟩ ∧
    stmtA.inner = innerA ∧ innerB ≠ innerA := by
  refine ⟨rfl, rfl, by decide⟩

/-- C3 (amended): resolving an existing `Statement` handle takes the
handle's own name list and its own metadata's raw query without re-parsing
the text, but that raw query is then resolved through the cache exactly
like raw text: on a cache hit the cached metadata (which may differ from
the handle's own) is returned paired with the handle's own name list and
the connection state is untouched; on a cache miss a fresh prepare occurs,
whose metadata is returned paired with the handle's own name list on
success, and whose failure is propagated. -/
theorem C3_handle_resolution_uses_cache (env : Env) (st : ConnState)
    (s : Statement) :
    s.info = .ok (s.named_params, s.inner.raw_query) ∧
    (∀ inner, cache_get st.cache s.inner.raw_query = some inner →
      get_statement_stmt env st s = (.ok ⟨inner, s.named_params⟩, st)) ∧
    (∀ (inner1 : StmtInner) (st1 : ConnState),
      cache_get st.cache s.inner.raw_query = none →
      prepare_statement env st s.inner.raw_query = (.ok inner1, st1) →
      get_statement_stmt env st s = (.ok ⟨inner1, s.named_params⟩, st1)) ∧
    (∀ (e : DriverError) (st1 : ConnState),
      cache_get st.cache s.inner.raw_query = none →
      prepare_statement env st s.inner.raw_query = (.error e, st1) →
      get_statement_stmt env st s = (.error e, st1)) := by
  refine ⟨rfl, ?_, ?_, ?_⟩
  · intro inner hhit
    simp [get_statement_stmt, Statement.info, hhit]
  · intro inner1 st1 hmiss hprep
    simp [get_statement_stmt, Statement.info, hmiss, hprep]
  · intro e st1 hmiss hprep
    simp [get_statement_stmt, Statement.info, hmiss, hprep]

/-- C3 witness: the amended claim at concrete inputs — a cache hit
returning the cached metadata (id 8, not the handle's own id 7), and a
cache miss performing a fresh prepare of the handle's query. -/
theorem C3_witness :
    stmtA.info = .ok (none, "q") ∧
    get_statement_stmt envBase stC3 stmtA = (.ok ⟨innerB, none⟩, stC3) ∧
    get_statement_stmt envBase stC3miss stmtA = (.ok ⟨innerA, none⟩, stC3missFin) := by
  have hhit := C3_handle_resolution_uses_cache envBase stC3 stmtA
  have hmiss := C3_handle_resolution_uses_cache envBase stC3miss stmtA
  exact ⟨hhit.1, hhit.2.1 innerB rfl,
    hmiss.2.2.1 innerA stC3missFin rfl (by rfl)⟩

/-- C4: when the cache insert performed by a successful prepare displaces
an entry and the wire close of the displaced handle fails, the prepare
call itself returns the failure, yet the newly prepared metadata remains
installed in the cache under its raw query. -/
theorem C4_evicted_close_failure_surfaces_error_entry_stays (env : Env)
    (st st1 : ConnState) (q : String) (inner old : StmtInner)
    (cache1 : StmtCache)
    (hmeta : prepare_meta env st q = (.ok inner, st1))
    (hcache : cache_stmt inner st1.cache = (cache1, some old))
    (hcap : 0 < st1.cache.capacity)
    (hfail : env.writeFails (.stmtClose old.id) = true) :
    (prepare_statement env st q).1 = .error .Other ∧
    cache_get (prepare_statement env st q).2.cache inner.raw_query = some inner := by
  have hps : prepare_statement env st q = (.error .Other, { st1 with cache := cache1 }) := by
    simp [prepare_statement, hmeta, hcache, writeCommand, hfail]
  rw [hps]
  exact ⟨rfl, cache_stmt_get_self inner st1.cache hcap cache1 (some old) hcache⟩

/-- C4 witness: a capacity-1 cache, a prepare of "new" evicting "old", and
a transport failing exactly on COM_STMT_CLOSE. -/
theorem C4_witness :
    (prepare_statement envCloseFail stC4 "new").1 = .error .Other ∧
    cache_get (prepare_statement envCloseFail stC4 "new").2.cache "new"
      = some innerNew := by
  exact C4_evicted_close_failure_surfaces_error_entry_stays envCloseFail stC4
    stC4meta "new" innerNew innerOld
    { capacity := 1, entries := [("new", innerNew)] }
    (by rfl) (by rfl) (by decide) (by rfl)

/-- C5: if the prepare response packet fails to parse, the whole prepare
operation aborts with an error and the statement cache is unchanged. -/
theorem C5_parse_failure_aborts_cache_unchanged (env : Env) (st : ConnState)
    (q : String) (pkt : List Nat) (rest : List (List Nat))
    (hw : env.writeFails (.stmtPrepare q) = false)
    (hin : st.incoming = pkt :: rest)
    (hparse : env.parseStmtPacket pkt = .error ()) :
    (prepare_statement env st q).1 = .error .Other ∧
    (prepare_statement env st q).2.cache = st.cache := by
  have hps : prepare_statement env st q
      = (.error .Other,
         { st with incoming := rest, written := st.written ++ [Command.stmtPrepare q] }) := by
    simp [prepare_statement, prepare_meta, writeCommand, read_packet, hw, hin, hparse]
  rw [hps]
  exact ⟨rfl, rfl⟩

/-- C5 witness: a concrete state whose single packet fails to parse. -/
theorem C5_witness :
    (prepare_statement envParseFail stC5 "p").1 = .error .Other ∧
    (prepare_statement envParseFail stC5 "p").2.cache = stC5.cache := by
  exact C5_parse_failure_aborts_cache_unchanged envParseFail stC5 "p" [9] []
    rfl rfl rfl

/-- C6: for a valid positional execute whose builder demands long data, all
long-data commands are written before the execute payload, and within one
byte value the commands carry its chunks in order. -/
theorem C6_long_data_precedes_execute_payload (env : Env) (st : ConnState)
    (statement : Statement) (vals : List Value)
    (hw : ∀ c, env.writeFails c = false)
    (heq : statement.num_params = vals.length)
    (hlong : env.buildAsLongData statement.id vals = true) :
    execute_statement env st statement (.Positional vals)
      = (.ok (), { st with written :=
          st.written ++ longDataCommands statement.id vals
            ++ [Command.execRequest statement.id vals] }) ∧
    (∀ (i : Nat) (b : List Nat), vals[i]? = some (.Bytes b) →
      (longDataCommands statement.id vals).filter (Command.longDataAt i)
        = (longDataChunks b).map (fun c => Command.sendLongData statement.id i c)) := by
  constructor
  · have h1 := execPositional_ok env st statement vals hw heq
    simp only [execute_statement]
    rw [h1, hlong]
    simp
  · intro i b hib
    have hf := longDataCmdsFrom_filter_at statement.id vals 0 i b hib
    simpa using hf

/-- C6 witness: one empty byte value produces its single long-data command
before the execute payload. -/
theorem C6_witness :
    execute_statement envBase st0 stmtC6 (.Positional [Value.Bytes []])
      = (.ok (), { st0 with written :=
          [Command.sendLongData 7 0 [], Command.execRequest 7 [Value.Bytes []]] }) ∧
    (longDataCommands 7 [Value.Bytes []]).filter (Command.longDataAt 0)
      = [Command.sendLongData 7 0 []] := by
  have h := C6_long_data_precedes_execute_payload envBase st0 stmtC6
    [Value.Bytes []] (fun c => rfl) rfl rfl
  constructor
  · have h1 := h.1
    simpa [st0, stmtC6, innerC6, spB, Statement.id, StmtInner.id,
      longDataCommands, longDataCmdsFrom, longDataBlock, longDataChunks,
      chunksOf_nil] using h1
  · have h2 := h.2 0 [] rfl
    simpa [stmtC6, innerC6, spB, Statement.id, StmtInner.id,
      longDataCommands, longDataChunks, chunksOf_nil] using h2

/-- C7: on a successful prepare, column-definition packets are consumed
iff the corresponding declared count is positive: exactly one response
packet, plus, for each of the parameter and result-column groups, exactly
its declared count of packets when that count is positive (and none when
it is zero), plus one extra EOF packet per non-empty group exactly when
the connection lacks the deprecate-EOF capability; each group parses into
exactly its declared count of descriptors. -/
theorem C7_column_defs_read_iff_count_positive (env : Env) (st st' : ConnState)
    (q : String) (inner : StmtInner)
    (h : prepare_statement env st q = (.ok inner, st')) :
    st'.incoming = st.incoming.drop
      (1 + (if inner.num_params = 0 then 0
            else inner.num_params + (if st.deprecate_eof then 0 else 1))
         + (if inner.num_columns = 0 then 0
            else inner.num_columns + (if st.deprecate_eof then 0 else 1))) ∧
    inner.paramsList.length = inner.num_params ∧
    inner.columnsList.length = inner.num_columns := by
  obtain ⟨st1, hmeta, hinc⟩ := prepare_statement_inv_ok env st st' q inner h
  obtain ⟨m1, m2, m3, m4, m5⟩ := prepare_meta_inv env st st1 q inner hmeta
  exact ⟨by rw [hinc, m1], m2, m3⟩

/-- C7 witness: a prepare declaring two parameters and no result columns
on a connection without deprecate-EOF consumes 1 + 2 + 1 packets. -/
theorem C7_witness :
    stC7fin.incoming = stC7.incoming.drop 4 ∧
    innerC7.paramsList.length = 2 ∧
    innerC7.columnsList.length = 0 := by
  have h := C7_column_defs_read_iff_count_positive envC7 stC7 stC7fin "q7"
    innerC7 (by rfl)
  refine ⟨?_, ?_, ?_⟩
  · have h1 := h.1
    simpa [innerC7, stC7, StmtInner.num_params, StmtInner.num_columns] using h1
  · have h2 := h.2.1
    simpa [innerC7, StmtInner.num_params] using h2
  · have h3 := h.2.2
    simpa [innerC7, StmtInner.num_columns] using h3

/-- C8: executing with a Named parameter set on a statement whose handle
carries no name list fails immediately with the dedicated error and leaves
the connection state untouched: no long-data command and no execute
payload is written. -/
theorem C8_named_params_rejected_before_any_write (env : Env) (st : ConnState)
    (statement : Statement) (pairs : List (String × Value))
    (h : statement.named_params = none) :
    execute_statement env st statement (.Named pairs)
      = (.error .NamedParamsForPositionalQuery, st) := by
  simp [execute_statement, h]

/-- C8 witness: a concrete named execute against a positional statement. -/
theorem C8_witness :
    execute_statement envBase st0 stmtA (.Named [("a", .NULL)])
      = (.error .NamedParamsForPositionalQuery, st0) :=
  C8_named_params_rejected_before_any_write envBase st0 stmtA [("a", .NULL)] rfl

/-- C9: the positional arity comparison is at full precision, but the
error's supplied field is the length reduced modulo 2^16: for every
positional input of length L ≥ 65536 with declared count K ≠ L, execute
fails with `(required = K, supplied = L mod 65536)` and writes nothing. -/
theorem C9_supplied_truncated_mod_u16 (env : Env) (st : ConnState)
    (statement : Statement) (vals : List Value)
    (hK : statement.num_params ≠ vals.length)
    (hL : 65536 ≤ vals.length) :
    execute_statement env st statement (.Positional vals)
      = (.error (.StmtParamsMismatch statement.num_params (vals.length % 65536)), st) := by
  simp only [execute_statement, execPositional, if_pos hK]

/-- C9 witness: 65537 values against a 0-parameter statement report
supplied = 1. -/
theorem C9_witness :
    execute_statement envBase st0 stmtA (.Positional (List.replicate 65537 .NULL))
      = (.error (.StmtParamsMismatch 0 1), st0) := by
  have h := C9_supplied_truncated_mod_u16 envBase st0 stmtA
    (List.replicate 65537 .NULL)
    (by rw [List.length_replicate]; decide)
    (by rw [List.length_replicate]; decide)
  rw [h, List.length_replicate]
  norm_num [stmtA, innerA, spA, Statement.num_params, StmtInner.num_params]

/-- C10: long-data commands arise only from `Value::Bytes` parameters:
when the builder flags the request as long data, the written trace places
exactly the long-data commands before the execute payload; every long-data
command is tagged with the statement id and the zero-based position of a
byte-valued parameter; and every byte-valued parameter, regardless of
size, contributes at least one long-data command at its position. -/
theorem C10_long_data_only_for_bytes_values (env : Env) (st : ConnState)
    (statement : Statement) (vals : List Value)
    (hw : ∀ c, env.writeFails c = false)
    (heq : statement.num_params = vals.length)
    (hlong : env.buildAsLongData statement.id vals = true) :
    (execute_statement env st statement (.Positional vals)).2.written
      = st.written ++ longDataCommands statement.id vals
        ++ [Command.execRequest statement.id vals] ∧
    (∀ cmd ∈ longDataCommands statement.id vals,
      ∃ i b chunk, cmd = .sendLongData statement.id i chunk ∧
        vals[i]? = some (.Bytes b)) ∧
    (∀ (i : Nat) (b : List Nat), vals[i]? = some (.Bytes b) →
      ∃ chunk, Command.sendLongData statement.id i chunk
        ∈ longDataCommands statement.id vals) := by
  refine ⟨?_, ?_, ?_⟩
  · have h1 := execPositional_ok env st statement vals hw heq
    simp only [execute_statement]
    rw [h1, hlong]
    simp
  · intro cmd hcmd
    rcases longDataCmdsFrom_mem statement.id vals 0 cmd hcmd
      with ⟨i, b, chunk, h1, h2, h3⟩
    exact ⟨i, b, chunk, by simpa using h1, h2⟩
  · intro i b hib
    rcases longDataCmdsFrom_mem_bytes statement.id vals 0 i b hib with ⟨chunk, hch⟩
    exact ⟨chunk, by simpa using hch⟩

/-- C10 witness: the empty byte value still produces a long-data command
at its position. -/
theorem C10_witness :
    ∃ chunk, Command.sendLongData 7 0 chunk ∈ longDataCommands 7 [Value.Bytes []] := by
  have h := (C10_long_data_only_for_bytes_values envBase st0 stmtC6
    [Value.Bytes []] (fun c => rfl) rfl rfl).2.2 0 [] rfl
  simpa [stmtC6, innerC6, spB, Statement.id, StmtInner.id] using h

end MysqlStmt
